import Mathlib

/-!
Verification of the burger-shop agent (`burger_agent.py`).

The file shallowly embeds the decision logic of the repository:

* the result-extraction loop of `run_agent` (lines 102–110), over a tagged
  turn type mirroring the LangChain message classes the loop distinguishes
  (`AIMessage`, `HumanMessage`, anything else carrying a `content` attribute);
* the two tools `lookup_price` and `place_order`, with the vector-store
  retriever abstracted as a function from queries to ranked document lists;
* a state-passing view of the tools over the knowledge base, for the
  frame / non-interference invariants;
* the module-level credential check (lines 10–16), with Python truthiness of
  `os.getenv` results made explicit.
-/

namespace BurgerAgent

/-- Role of a conversation turn.  `run_agent` distinguishes `AIMessage`
(assistant), `HumanMessage` (user) and every other message object; LangChain
message objects all carry a `content` attribute, so "other" covers tool
messages and any unrecognized role that still has displayable text. -/
inductive Role where
  | assistant
  | user
  | tool
deriving DecidableEq, Repr

/-- One turn of the conversation returned by `agent.invoke`: a role and a
text payload (`content`).  Python truthiness of `msg.content` for strings is
non-emptiness. -/
structure Msg where
  role : Role
  content : String
deriving DecidableEq, Repr

/-- The `for msg in reversed(messages)` loop body of `run_agent`
(burger_agent.py lines 104–108), applied to an already-reversed list:

```
if isinstance(msg, AIMessage) and msg.content:
    return (str(msg.content), trace_id)
elif hasattr(msg, "content") and msg.content and not isinstance(msg, HumanMessage):
    return (str(msg.content), trace_id)
```

`none` means the loop fell through without returning. -/
def extractLoop : List Msg → Option String
  | [] => none
  | m :: rest =>
    if m.role = Role.assistant ∧ m.content ≠ "" then some m.content
    else if m.content ≠ "" ∧ m.role ≠ Role.user then some m.content
    else extractLoop rest

/-- Result extraction of `run_agent` (lines 102–110): if the turn list is
truthy, scan it from most recent to oldest with `extractLoop`; if the loop
returns nothing (or the list is empty), fall back to `str(result)`, passed
here as `raw`. -/
def run_agent_extract (messages : List Msg) (raw : String) : String :=
  if messages.isEmpty then raw
  else
    match extractLoop messages.reverse with
    | some s => s
    | none => raw

/-- The most recent turn with non-empty text not attributed to the user,
if any. -/
def lastContentfulNonUser (messages : List Msg) : Option Msg :=
  messages.reverse.find? (fun m => decide (m.content ≠ "" ∧ m.role ≠ Role.user))

/-- The two branches of the loop body fire on exactly the turns with
non-empty text and non-user role, and both return the turn's text, so the
whole loop is a `find?` over that single predicate. -/
theorem extractLoop_eq_find (l : List Msg) :
    extractLoop l =
      (l.find? (fun m => decide (m.content ≠ "" ∧ m.role ≠ Role.user))).map Msg.content := by
  induction l with
  | nil => rfl
  | cons m rest ih =>
    by_cases h1 : m.role = Role.assistant ∧ m.content ≠ ""
    · have hp : (fun m => decide (m.content ≠ "" ∧ m.role ≠ Role.user)) m = true := by
        simp [h1.2, h1.1]
      simp [extractLoop, h1, List.find?, hp]
    · by_cases h2 : m.content ≠ "" ∧ m.role ≠ Role.user
      · have hp : (fun m => decide (m.content ≠ "" ∧ m.role ≠ Role.user)) m = true := by
          simp [h2.1, h2.2]
        simp [extractLoop, h1, h2, List.find?, hp]
      · have hp : (fun m => decide (m.content ≠ "" ∧ m.role ≠ Role.user)) m = false := by
          simpa using h2
        simp [extractLoop, h1, h2, List.find?, hp, ih]

/-- A retrieved document, as returned by `retriever.invoke`: the only field
`lookup_price` reads is `page_content`. -/
structure Document where
  page_content : String
deriving DecidableEq, Repr

/-- Python `"\n".join(strs)`: the elements in order, separated by single
newlines. -/
def joinNewline : List String → String
  | [] => ""
  | [s] => s
  | s :: rest => s ++ "\n" ++ joinNewline rest

/-- `lookup_price` (burger_agent.py lines 28–43).  The FAISS retriever is an
external collaborator, abstracted as a function from a query to the ranked
list of nearest documents (closest first):

```
docs = retriever.invoke(query)
if not docs:
    return "No items found matching your query."
return "\n".join([doc.page_content for doc in docs])
``` -/
def lookup_price (retr : String → List Document) (query : String) : String :=
  let docs := retr query
  if docs = [] then "No items found matching your query."
  else joinNewline (docs.map (fun doc => doc.page_content))

/-- `place_order` (burger_agent.py lines 46–58): a fixed confirmation
template with the caller's string embedded verbatim. -/
def place_order (items : String) : String :=
  "ORDER_PLACED: [" ++ items ++ "]"

/-- The process-wide knowledge-base state: the record list `MENU_DATA` and
the retriever derived from the vector store built over it.  Both are set at
module load and visible to the tools as globals. -/
structure KB where
  records : List String
  retrieve : String → List Document

/-- The `MENU_DATA` list (burger_agent.py lines 18–22). -/
def MENU_DATA : List String :=
  ["Big Mac: $5", "Whopper: $6", "Fries: $2"]

/-- The tool invocations the completion engine can issue. -/
inductive ToolCall where
  | lookup (query : String)
  | order (items : String)
deriving DecidableEq, Repr

/-- State-passing view of one tool invocation: the tool's string output
together with the knowledge-base state after the call.  `lookup_price` reads
the retriever; neither tool body contains an assignment to any global, so the
post-state is the pre-state. -/
def runTool (kb : KB) : ToolCall → String × KB
  | ToolCall.lookup q => (lookup_price kb.retrieve q, kb)
  | ToolCall.order items => (place_order items, kb)

/-- Knowledge-base state after a sequence of tool invocations, threaded
call by call. -/
def execTools (kb : KB) : List ToolCall → KB
  | [] => kb
  | c :: cs => execTools (runTool kb c).2 cs

/-- The effect of one `run_agent` invocation on the knowledge base: the
completion engine issues some sequence of tool calls; `run_agent` itself only
builds the input messages and reads the result, touching no knowledge-base
state. -/
def run_agent_kb (kb : KB) (calls : List ToolCall) : KB :=
  execTools kb calls

/-- The exact message of the `ValueError` raised at burger_agent.py line 13. -/
def credentialErrorMsg : String :=
  "GEMINI_API_KEY not found in environment variables. Please set it in your .env file."

/-- Python truthiness of an `os.getenv` result: `None` and the empty string
are falsy, every other string is truthy. -/
def pythonTruthy : Option String → Bool
  | none => false
  | some v => v ≠ ""

/-- Provider-touching steps the module performs at load time after the
credential check, in source order (lines 16, 24, 63, 77). -/
inductive StartupEvent where
  | embeddingsInit
  | vectorstoreBuild
  | llmInit
  | agentBuild
deriving DecidableEq, Repr

/-- Module-level startup (burger_agent.py lines 10–16 and onward): read the
credential from the environment; if it is falsy, raise `ValueError` with a
descriptive message, before any provider client is constructed or called;
otherwise proceed to build embeddings, vector store, LLM, and agent. -/
def startup (env : Option String) : Except String (List StartupEvent) :=
  if pythonTruthy env then
    Except.ok [StartupEvent.embeddingsInit, StartupEvent.vectorstoreBuild,
               StartupEvent.llmInit, StartupEvent.agentBuild]
  else
    Except.error credentialErrorMsg

/-- `run_agent` returns the content of the most recent turn with non-empty
text and non-user role when one exists, and the raw fallback otherwise. -/
theorem run_agent_extract_eq (messages : List Msg) (raw : String) :
    run_agent_extract messages raw =
      ((lastContentfulNonUser messages).map Msg.content).getD raw := by
  unfold run_agent_extract lastContentfulNonUser
  rw [extractLoop_eq_find]
  by_cases h : messages.isEmpty
  · have h0 : messages = [] := by
      cases messages with
      | nil => rfl
      | cons a l => simp [List.isEmpty] at h
    subst h0
    simp
  · simp only [h, if_false]
    cases hf : messages.reverse.find? (fun m => decide (m.content ≠ "" ∧ m.role ≠ Role.user)) with
    | none => simp
    | some m => simp

/-- C1: the claim fails on the code.  In the sequence
`[assistant "A", tool "T"]` there is an assistant turn with non-empty text,
yet extraction returns `"T"`, the more recent tool turn's text, which is the
content of no assistant turn: the `elif` branch of the loop fires on the tool
turn before the scan ever reaches the assistant turn. -/
theorem C1_counterexample :
    (∃ m ∈ ([⟨Role.assistant, "A"⟩, ⟨Role.tool, "T"⟩] : List Msg),
        m.role = Role.assistant ∧ m.content ≠ "") ∧
    run_agent_extract [⟨Role.assistant, "A"⟩, ⟨Role.tool, "T"⟩] "raw" = "T" ∧
    ¬ ∃ m ∈ ([⟨Role.assistant, "A"⟩, ⟨Role.tool, "T"⟩] : List Msg),
        m.role = Role.assistant ∧
        m.content = run_agent_extract [⟨Role.assistant, "A"⟩, ⟨Role.tool, "T"⟩] "raw" := by
  refine ⟨⟨⟨Role.assistant, "A"⟩, by simp, rfl, by decide⟩, rfl, ?_⟩
  decide

/-- C1 (amended): an assistant turn with non-empty text wins exactly when no
turn after it carries non-empty text of a non-user role; in particular the
assistant's final message beats any tool-output turn that precedes it, but a
contentful tool turn that is more recent than every contentful assistant turn
is returned instead (recency, not role, breaks the tie). -/
theorem C1_amended_assistant_wins (pre post : List Msg) (a : Msg) (raw : String)
    (ha : a.role = Role.assistant) (hc : a.content ≠ "")
    (hpost : ∀ m ∈ post, m.content = "" ∨ m.role = Role.user) :
    run_agent_extract (pre ++ a :: post) raw = a.content := by
  rw [run_agent_extract_eq]
  unfold lastContentfulNonUser
  have hrev : (pre ++ a :: post).reverse = post.reverse ++ a :: pre.reverse := by
    simp
  rw [hrev, List.find?_append]
  have hnone : post.reverse.find? (fun m => decide (m.content ≠ "" ∧ m.role ≠ Role.user))
      = none := by
    rw [List.find?_eq_none]
    intro m hm
    rcases hpost m (List.mem_reverse.mp hm) with h | h <;> simp [h]
  have hpa : (fun m => decide (m.content ≠ "" ∧ m.role ≠ Role.user)) a = true := by
    simp [hc, ha]
  have hfind : List.find? (fun m => decide (m.content ≠ "" ∧ m.role ≠ Role.user))
      (a :: pre.reverse) = some a := List.find?_cons_of_pos pre.reverse hpa
  rw [hnone, hfind]
  rfl

/-- C1 amended, witnessed at the spec's own tie-break example: the sequence
ends `[tool "T", assistant "A"]`, and the assistant's text is returned. -/
theorem C1_amended_witness :
    run_agent_extract [⟨Role.tool, "T"⟩, ⟨Role.assistant, "A"⟩] "raw" = "A" :=
  C1_amended_assistant_wins [⟨Role.tool, "T"⟩] [] ⟨Role.assistant, "A"⟩ "raw"
    rfl (by decide) (by simp)

/-- C2: when no assistant turn has non-empty text but some non-user turn
does, extraction returns the text of the most recent contentful non-user
turn, not the raw-result fallback. -/
theorem C2_most_recent_nonuser (msgs : List Msg) (raw : String)
    (_hass : ∀ m ∈ msgs, m.role = Role.assistant → m.content = "")
    (hsome : ∃ m ∈ msgs, m.content ≠ "" ∧ m.role ≠ Role.user) :
    ∃ m, lastContentfulNonUser msgs = some m ∧ run_agent_extract msgs raw = m.content := by
  have hex : ∃ m ∈ msgs.reverse,
      (fun m => decide (m.content ≠ "" ∧ m.role ≠ Role.user)) m = true := by
    rcases hsome with ⟨m, hm, h1, h2⟩
    exact ⟨m, List.mem_reverse.mpr hm, by simp [h1, h2]⟩
  have hsome2 : (msgs.reverse.find?
      (fun m => decide (m.content ≠ "" ∧ m.role ≠ Role.user))).isSome := by
    rw [List.find?_isSome]
    rcases hex with ⟨m, hm, hp⟩
    exact ⟨m, hm, hp⟩
  rcases Option.isSome_iff_exists.mp hsome2 with ⟨m, hm⟩
  refine ⟨m, hm, ?_⟩
  rw [run_agent_extract_eq]
  unfold lastContentfulNonUser
  rw [hm]
  rfl

/-- C2 witness: a lone tool turn with text is returned, not the fallback. -/
theorem C2_witness :
    ∃ m, lastContentfulNonUser [⟨Role.tool, "T"⟩] = some m ∧
      run_agent_extract [⟨Role.tool, "T"⟩] "raw" = m.content :=
  C2_most_recent_nonuser [⟨Role.tool, "T"⟩] "raw" (by decide)
    ⟨⟨Role.tool, "T"⟩, by simp, by decide, by decide⟩

/-- C3: when every turn with non-empty text is a user turn (in particular for
the empty sequence), extraction falls back to the stringified raw result and
does not raise. -/
theorem C3_raw_fallback (msgs : List Msg) (raw : String)
    (h : ∀ m ∈ msgs, m.content ≠ "" → m.role = Role.user) :
    run_agent_extract msgs raw = raw := by
  rw [run_agent_extract_eq]
  unfold lastContentfulNonUser
  have hnone : msgs.reverse.find? (fun m => decide (m.content ≠ "" ∧ m.role ≠ Role.user))
      = none := by
    rw [List.find?_eq_none]
    intro m hm
    by_cases hc : m.content = ""
    · simp [hc]
    · simp [hc, h m (List.mem_reverse.mp hm) hc]
  rw [hnone]
  rfl

/-- C3 witness: a user turn with text plus an assistant turn with empty text
yield the raw fallback. -/
theorem C3_witness :
    run_agent_extract [⟨Role.user, "hi"⟩, ⟨Role.assistant, ""⟩] "RAW" = "RAW" :=
  C3_raw_fallback [⟨Role.user, "hi"⟩, ⟨Role.assistant, ""⟩] "RAW" (by decide)

/-- C4: `place_order` is the fixed template with the input embedded verbatim;
a second call on the post-state of the first returns the identical string, and
the knowledge-base state is unchanged by either call. -/
theorem C4_place_order_template (x : String) (kb : KB) (_h : x ≠ "") :
    (runTool kb (ToolCall.order x)).1 = "ORDER_PLACED: [" ++ x ++ "]" ∧
    runTool (runTool kb (ToolCall.order x)).2 (ToolCall.order x)
      = runTool kb (ToolCall.order x) ∧
    (runTool kb (ToolCall.order x)).2 = kb :=
  ⟨rfl, rfl, rfl⟩

/-- C4 witness at a concrete order over the menu knowledge base. -/
theorem C4_witness :
    (runTool ⟨MENU_DATA, fun _ => []⟩ (ToolCall.order "Big Mac, Fries")).1
      = "ORDER_PLACED: [" ++ "Big Mac, Fries" ++ "]" :=
  (C4_place_order_template "Big Mac, Fries" ⟨MENU_DATA, fun _ => []⟩ (by decide)).1

/-- C5: when the retriever returns no documents, `lookup_price` returns the
fixed sentinel, which is not the empty string; the no-match outcome is a
normal string return, not a raised error. -/
theorem C5_no_match_sentinel (retr : String → List Document) (query : String)
    (h : retr query = []) :
    lookup_price retr query = "No items found matching your query." ∧
    lookup_price retr query ≠ "" := by
  constructor
  · simp [lookup_price, h]
  · simp [lookup_price, h]

/-- C5 witness: an empty knowledge base yields the sentinel. -/
theorem C5_witness :
    lookup_price (fun _ => []) "Big Mac price"
      = "No items found matching your query." ∧
    lookup_price (fun _ => []) "Big Mac price" ≠ "" :=
  C5_no_match_sentinel (fun _ => []) "Big Mac price" rfl

/-- `String.intercalate.go acc s l` prepends `acc` to the rest of the join. -/
theorem intercalate_go_append (s : String) :
    ∀ (l : List String) (x y : String),
      String.intercalate.go (x ++ y) s l = x ++ String.intercalate.go y s l := by
  intro l
  induction l with
  | nil => intro x y; rfl
  | cons a as ih =>
    intro x y
    show String.intercalate.go (x ++ y ++ s ++ a) s as
        = x ++ String.intercalate.go (y ++ s ++ a) s as
    rw [String.append_assoc x y s, String.append_assoc x (y ++ s) a]
    exact ih x (y ++ s ++ a)

/-- The source's `"\n".join` agrees with the library's `String.intercalate`. -/
theorem joinNewline_eq_intercalate :
    ∀ l : List String, joinNewline l = String.intercalate "\n" l := by
  intro l
  induction l with
  | nil => rfl
  | cons a as ih =>
    cases as with
    | nil => rfl
    | cons b bs =>
      show a ++ "\n" ++ joinNewline (b :: bs) = String.intercalate.go a "\n" (b :: bs)
      rw [ih]
      show a ++ "\n" ++ String.intercalate "\n" (b :: bs)
          = String.intercalate.go (a ++ "\n" ++ b) "\n" bs
      rw [intercalate_go_append "\n" bs (a ++ "\n") b]
      rfl

/-- C6: when the retriever returns a non-empty document list, `lookup_price`
returns exactly the documents' text joined with newlines, in the order the
retriever returned them (closest first), with no other transformation. -/
theorem C6_join_preserves_order (retr : String → List Document) (query : String)
    (h : retr query ≠ []) :
    lookup_price retr query
      = String.intercalate "\n" ((retr query).map Document.page_content) := by
  unfold lookup_price
  simp only [h, if_neg h]
  exact joinNewline_eq_intercalate _

/-- C6 witness: two retrieved records come back newline-joined, closest
first. -/
theorem C6_witness :
    lookup_price (fun _ => [⟨"Big Mac: $5"⟩, ⟨"Fries: $2"⟩]) "price"
      = String.intercalate "\n"
          (List.map Document.page_content [⟨"Big Mac: $5"⟩, ⟨"Fries: $2"⟩]) :=
  C6_join_preserves_order (fun _ => [⟨"Big Mac: $5"⟩, ⟨"Fries: $2"⟩]) "price"
    (by decide)

/-- C7: `place_order` never consults the knowledge base: its output is the
same under any two knowledge-base states, and is always the echo template, so
no price or name validity is ever enforced. -/
theorem C7_order_ignores_kb (kb1 kb2 : KB) (items : String) :
    (runTool kb1 (ToolCall.order items)).1 = (runTool kb2 (ToolCall.order items)).1 ∧
    (runTool kb1 (ToolCall.order items)).1 = "ORDER_PLACED: [" ++ items ++ "]" :=
  ⟨rfl, rfl⟩

/-- C8: the knowledge base is read-only after construction: any single tool
invocation, and hence any sequence of tool invocations issued during
`run_agent`, leaves the knowledge-base state equal to its initial value. -/
theorem C8_kb_read_only (kb : KB) (calls : List ToolCall) :
    (∀ c : ToolCall, (runTool kb c).2 = kb) ∧
    execTools kb calls = kb ∧
    run_agent_kb kb calls = kb := by
  have hstep : ∀ (kb0 : KB) (c : ToolCall), (runTool kb0 c).2 = kb0 := by
    intro kb0 c
    cases c <;> rfl
  have hexec : ∀ (cs : List ToolCall) (kb0 : KB), execTools kb0 cs = kb0 := by
    intro cs
    induction cs with
    | nil => intro kb0; rfl
    | cons c cs ih =>
      intro kb0
      show execTools (runTool kb0 c).2 cs = kb0
      rw [hstep kb0 c]
      exact ih kb0
  exact ⟨hstep kb, hexec calls kb, hexec calls kb⟩

/-- C9: a falsy credential (unset, or set to the empty string) makes startup
fail with the descriptive `ValueError` message; the error branch produces no
`StartupEvent`, so no provider client is constructed and no embedding or
completion call is attempted, and nothing catches or retries the error. -/
theorem C9_missing_credential_fails_fast (env : Option String)
    (h : env = none ∨ env = some "") :
    startup env = Except.error credentialErrorMsg ∧
    (startup env).isOk = false := by
  rcases h with h | h <;> subst h <;> exact ⟨rfl, rfl⟩

/-- C9 witness: with the credential absent, startup is the fatal error. -/
theorem C9_witness :
    startup none = Except.error credentialErrorMsg ∧
    (startup none).isOk = false :=
  C9_missing_credential_fails_fast none (Or.inl rfl)

/-- C10: when the last turn is a non-user turn with non-empty text, its text
is returned regardless of earlier turns; and a final assistant turn with
empty text is skipped, the scan continuing over the older turns. -/
theorem C10_most_recent_wins :
    (∀ (msgs : List Msg) (m : Msg) (raw : String),
        m.role ≠ Role.user → m.content ≠ "" →
        run_agent_extract (msgs ++ [m]) raw = m.content) ∧
    (∀ (msgs : List Msg) (a : Msg) (raw : String),
        a.role = Role.assistant → a.content = "" →
        run_agent_extract (msgs ++ [a]) raw = run_agent_extract msgs raw) := by
  constructor
  · intro msgs m raw hrole hcontent
    rw [run_agent_extract_eq]
    unfold lastContentfulNonUser
    have hrev : (msgs ++ [m]).reverse = m :: msgs.reverse := by simp
    have hpm : (fun m => decide (m.content ≠ "" ∧ m.role ≠ Role.user)) m = true := by
      simp [hcontent, hrole]
    have hfind : List.find? (fun m => decide (m.content ≠ "" ∧ m.role ≠ Role.user))
        (m :: msgs.reverse) = some m := List.find?_cons_of_pos msgs.reverse hpm
    rw [hrev, hfind]
    rfl
  · intro msgs a raw hrole hcontent
    rw [run_agent_extract_eq, run_agent_extract_eq]
    unfold lastContentfulNonUser
    have hrev : (msgs ++ [a]).reverse = a :: msgs.reverse := by simp
    have hpa : ¬((fun m => decide (m.content ≠ "" ∧ m.role ≠ Role.user)) a = true) := by
      simp [hcontent]
    have hfind : List.find? (fun m => decide (m.content ≠ "" ∧ m.role ≠ Role.user))
        (a :: msgs.reverse)
        = List.find? (fun m => decide (m.content ≠ "" ∧ m.role ≠ Role.user)) msgs.reverse :=
      List.find?_cons_of_neg msgs.reverse hpa
    rw [hrev, hfind]

/-- C10 witness: a final tool turn's text beats an earlier assistant turn,
and a final empty assistant turn is skipped. -/
theorem C10_witness :
    run_agent_extract [⟨Role.assistant, "A"⟩, ⟨Role.tool, "T"⟩] "rawZ" = "T" ∧
    run_agent_extract [⟨Role.tool, "T"⟩, ⟨Role.assistant, ""⟩] "rawZ"
      = run_agent_extract [⟨Role.tool, "T"⟩] "rawZ" :=
  ⟨C10_most_recent_wins.1 [⟨Role.assistant, "A"⟩] ⟨Role.tool, "T"⟩ "rawZ"
      (by decide) (by decide),
   C10_most_recent_wins.2 [⟨Role.tool, "T"⟩] ⟨Role.assistant, ""⟩ "rawZ" rfl rfl⟩

end BurgerAgent
